import Mathlib

/-!
Verification of the path-resolver and result-extraction logic of
flux_dev_script.py.

The script's own logic consists of:
- find_path: ascend from a starting directory towards the filesystem root,
  looking for a directory whose immediate child list contains a target name;
- get_value_at_index: positional extraction from a sequence or mapping, with
  a fallback to the "result" key on KeyError;
- add_comfyui_directory_to_sys_path / add_extra_model_paths: register paths
  found by find_path, tolerating absence.

Shallow embedding conventions:
- An absolute filesystem path is a list of components from the root, so the
  root directory is [], os.path.dirname is List.dropLast (dirname of the root
  is the root itself), and os.path.join path name is path ++ [name].
- The filesystem is a FileSystem record: listdir returns some entries for a
  listable directory and none when os.listdir would raise an OSError; isdir
  models os.path.isdir.
- Python exceptions are modelled with Except; a raised exception is .error.
- print calls are modelled as structured LogEvent values collected in a
  trace, since the claims are about which conditions get logged, not about
  string rendering.
-/

namespace FluxDev

/-- Observable output events of the script: each print call (and the one
external config-loading call) becomes one structured event. -/
inductive LogEvent where
  /-- Models print of "{name} found: {path_name}" inside find_path. -/
  | found (name : String) (pathName : List String)
  /-- Models print of "'{comfyui_path}' added to sys.path". -/
  | addedToSysPath (p : List String)
  /-- Models print of "Could not find the extra_model_paths config file.". -/
  | configNotFound
  /-- Models the external call load_extra_path_config(extra_model_paths). -/
  | loadedConfig (p : List String)
deriving DecidableEq, Repr

/-- The filesystem as seen by the script: a directory listing map and a
directory test. listdir p = none models os.listdir raising an OSError
(path missing or unreadable); isdir models os.path.isdir. -/
structure FileSystem where
  listdir : List String → Option (List String)
  isdir : List String → Bool

/-- Embedding of find_path (flux_dev_script.py lines 32-55).  The Python
code lists the current directory, returns os.path.join(path, name) and
prints a message if name is among the entries, otherwise recurses on
os.path.dirname(path), stopping with None when the parent equals the
current path (filesystem root).  An OSError from os.listdir propagates
(.error ()).  The second component is the trace of print events. -/
def find_path (fs : FileSystem) (name : String) (path : List String) :
    Except Unit (Option (List String)) × List LogEvent :=
  match fs.listdir path with
  | none => (.error (), [])
  | some entries =>
    if name ∈ entries then
      let path_name := path ++ [name]
      (.ok (some path_name), [.found name path_name])
    else
      let parent := path.dropLast
      if parent = path then
        (.ok none, [])
      else
        find_path fs name parent
termination_by path.length
decreasing_by
  rename_i hne
  have hnil : path ≠ [] := by
    intro h
    exact hne (by subst h; rfl)
  have hpos : 0 < path.length := List.length_pos.mpr hnil
  simp only [List.length_dropLast]
  omega

/-- Fuel-indexed variant of find_path, structurally recursive on the fuel:
none means the fuel was exhausted before the search reached a terminal
state.  Used to state the termination/step-count bound. -/
def find_path_fuel (fs : FileSystem) (name : String) :
    Nat → List String → Option (Except Unit (Option (List String)) × List LogEvent)
  | 0, _ => none
  | fuel + 1, path =>
    match fs.listdir path with
    | none => some (.error (), [])
    | some entries =>
      if name ∈ entries then
        let path_name := path ++ [name]
        some (.ok (some path_name), [.found name path_name])
      else
        let parent := path.dropLast
        if parent = path then
          some (.ok none, [])
        else
          find_path_fuel fs name fuel parent

/-- Dictionary keys occurring in the script: the integer position used for
direct indexing and the string key of the fallback lookup. -/
inductive Key where
  | intKey (i : Int)
  | strKey (s : String)
deriving DecidableEq, Repr

/-- Python values threaded through get_value_at_index: ordered sequences
(lists) and key-value mappings (dicts). -/
inductive Value where
  | seq (elems : List Value)
  | map (entries : List (Key × Value))

/-- Python exceptions relevant to get_value_at_index. -/
inductive PyError where
  | keyError
  | indexError
  | typeError
deriving DecidableEq, Repr

/-- Python obj[index] for an integer index: list indexing (with negative
indices counted from the end, IndexError when out of range) or dict lookup
(KeyError when the key is absent). -/
def getitem_int (v : Value) (i : Int) : Except PyError Value :=
  match v with
  | .seq elems =>
    let j : Int := if i < 0 then i + elems.length else i
    if 0 ≤ j then
      match elems.get? j.toNat with
      | some x => .ok x
      | none => .error .indexError
    else
      .error .indexError
  | .map entries =>
    match entries.lookup (Key.intKey i) with
    | some x => .ok x
    | none => .error .keyError

/-- Python obj[s] for a string key: dict lookup (KeyError when absent);
subscripting a list with a string raises a TypeError. -/
def getitem_str (v : Value) (s : String) : Except PyError Value :=
  match v with
  | .seq _ => .error .typeError
  | .map entries =>
    match entries.lookup (Key.strKey s) with
    | some x => .ok x
    | none => .error .keyError

/-- Embedding of get_value_at_index (flux_dev_script.py lines 8-29):
try obj[index]; on a KeyError (and only on a KeyError) fall back to
obj["result"][index]; any exception raised by the fallback, and any
non-KeyError exception from the direct access, propagates. -/
def get_value_at_index (obj : Value) (index : Int) : Except PyError Value :=
  match getitem_int obj index with
  | .ok v => .ok v
  | .error .keyError =>
    match getitem_str obj "result" with
    | .ok r => getitem_int r index
    | .error e => .error e
  | .error e => .error e

/-- Embedding of add_comfyui_directory_to_sys_path (lines 58-65): look up
"ComfyUI" from the working directory; if found and a directory, append it
to sys.path and print a message; otherwise do nothing further.  The result
carries the new sys.path and the trace of events. -/
def add_comfyui_directory_to_sys_path (fs : FileSystem) (cwd : List String)
    (sys_path : List (List String)) :
    Except Unit (List (List String) × List LogEvent) :=
  match find_path fs "ComfyUI" cwd with
  | (.error e, _) => .error e
  | (.ok res, log) =>
    match res with
    | some comfyui_path =>
      if fs.isdir comfyui_path then
        .ok (sys_path ++ [comfyui_path], log ++ [.addedToSysPath comfyui_path])
      else
        .ok (sys_path, log)
    | none => .ok (sys_path, log)

/-- Embedding of add_extra_model_paths (lines 68-85): look up
"extra_model_paths.yaml" from the working directory; if found, call
load_extra_path_config on it (modelled as a loadedConfig event), otherwise
print "Could not find the extra_model_paths config file.".  The import of
load_extra_path_config is taken as given. -/
def add_extra_model_paths (fs : FileSystem) (cwd : List String) :
    Except Unit (List LogEvent) :=
  match find_path fs "extra_model_paths.yaml" cwd with
  | (.error e, _) => .error e
  | (.ok res, log) =>
    match res with
    | some extra_model_paths => .ok (log ++ [.loadedConfig extra_model_paths])
    | none => .ok (log ++ [.configNotFound])

/-! Concrete filesystems used to instantiate the theorems below. -/

/-- A tree whose root contains "target" and whose other directories are
empty. -/
def fsTargetAtRoot : FileSystem :=
  ⟨fun p => if p = [] then some ["target"] else some [], fun _ => true⟩

/-- A tree in which every directory contains "target". -/
def fsTargetEverywhere : FileSystem :=
  ⟨fun _ => some ["target"], fun _ => true⟩

/-- A tree in which every directory is empty. -/
def fsEmptyA : FileSystem :=
  ⟨fun _ => some [], fun _ => true⟩

/-- A second all-empty tree, with no directory test succeeding. -/
def fsEmptyB : FileSystem :=
  ⟨fun _ => some [], fun _ => false⟩

/-- A tree whose root contains "ComfyUI". -/
def fsComfyAtRoot : FileSystem :=
  ⟨fun _ => some ["ComfyUI"], fun _ => true⟩

/-- A filesystem on which every directory listing raises. -/
def fsUnlistable : FileSystem :=
  ⟨fun _ => none, fun _ => false⟩

/-! Helper lemmas about find_path. -/

theorem dropLast_eq_self_iff {α : Type} (l : List α) : l.dropLast = l ↔ l = [] := by
  constructor
  · intro h
    by_contra hne
    have hpos : 0 < l.length := List.length_pos.mpr hne
    have := congrArg List.length h
    rw [List.length_dropLast] at this
    omega
  · intro h
    subst h
    rfl

theorem dropLast_take_eq {α : Type} (l : List α) (k : Nat) (hk : k ≤ l.length - 1) :
    l.dropLast.take k = l.take k := by
  rw [List.dropLast_eq_take, List.take_take]
  congr 1
  omega

theorem find_path_listdir_none (fs : FileSystem) (name : String) (path : List String)
    (h : fs.listdir path = none) :
    find_path fs name path = (.error (), []) := by
  rw [find_path.eq_def, h]

theorem find_path_mem (fs : FileSystem) (name : String) (path : List String)
    (entries : List String) (h : fs.listdir path = some entries) (hm : name ∈ entries) :
    find_path fs name path = (.ok (some (path ++ [name])), [.found name (path ++ [name])]) := by
  rw [find_path.eq_def, h]
  simp [hm]

theorem find_path_stop (fs : FileSystem) (name : String) (path : List String)
    (entries : List String) (h : fs.listdir path = some entries) (hm : name ∉ entries)
    (hroot : path.dropLast = path) :
    find_path fs name path = (.ok none, []) := by
  rw [find_path.eq_def, h]
  simp [hm, hroot]

theorem find_path_step (fs : FileSystem) (name : String) (path : List String)
    (entries : List String) (h : fs.listdir path = some entries) (hm : name ∉ entries)
    (hne : path.dropLast ≠ path) :
    find_path fs name path = find_path fs name path.dropLast := by
  rw [find_path.eq_def, h]
  simp [hm, hne]

/-- The trace of print events of find_path: exactly one found message when
the search succeeds, nothing otherwise. -/
theorem find_path_trace (fs : FileSystem) (name : String) (path : List String) :
    (find_path fs name path).2 =
      match (find_path fs name path).1 with
      | .ok (some r) => [LogEvent.found name r]
      | _ => [] := by
  induction path using find_path.induct fs name with
  | case1 p h =>
    rw [find_path_listdir_none fs name p h]
  | case2 p entries h hm =>
    rw [find_path_mem fs name p entries h hm]
  | case3 p entries h hm parent hroot =>
    rw [find_path_stop fs name p entries h hm hroot]
  | case4 p entries h hm parent hne ih =>
    rw [find_path_step fs name p entries h hm hne]
    exact ih

/-! Claim theorems about find_path. -/

/-- C1: for every directory tree and every target name that is present in
the immediate child list of the starting directory or of some ancestor of
it (ancestors being the prefixes path.take k of the starting path, down to
the root []), find_path succeeds and returns an ancestor's path joined with
the name, that ancestor's child list containing the name. -/
theorem find_path_returns_ancestor_join (fs : FileSystem) (name : String) (path : List String)
    (hlist : ∀ k, k ≤ path.length → (fs.listdir (path.take k)).isSome = true)
    (hmem : ∃ k, k ≤ path.length ∧ name ∈ (fs.listdir (path.take k)).getD []) :
    ∃ k, k ≤ path.length ∧ name ∈ (fs.listdir (path.take k)).getD [] ∧
      (find_path fs name path).1 = .ok (some (path.take k ++ [name])) := by
  induction path using find_path.induct fs name with
  | case1 p h =>
    exfalso
    have := hlist p.length le_rfl
    rw [List.take_length, h] at this
    simp at this
  | case2 p entries h hm =>
    refine ⟨p.length, le_rfl, ?_, ?_⟩
    · rw [List.take_length, h]
      simpa using hm
    · rw [find_path_mem fs name p entries h hm, List.take_length]
  | case3 p entries h hm parent hroot =>
    exfalso
    have hroot' : p.dropLast = p := hroot
    have hp : p = [] := (dropLast_eq_self_iff p).mp hroot'
    subst hp
    obtain ⟨k, hk, hkm⟩ := hmem
    have hk0 : k = 0 := by simpa using hk
    subst hk0
    simp only [List.take_nil, h, Option.getD_some] at hkm
    exact hm hkm
  | case4 p entries h hm parent hne ih =>
    have hne' : p.dropLast ≠ p := hne
    have hp : p ≠ [] := fun hp0 => hne' ((dropLast_eq_self_iff p).mpr hp0)
    have hpos : 0 < p.length := List.length_pos.mpr hp
    have hdl : p.dropLast.length = p.length - 1 := List.length_dropLast p
    obtain ⟨k, hk, hkm⟩ := hmem
    have hklt : k < p.length := by
      rcases Nat.lt_or_ge k p.length with h1 | h2
      · exact h1
      · exfalso
        have hkeq : k = p.length := le_antisymm hk h2
        subst hkeq
        rw [List.take_length, h] at hkm
        simp only [Option.getD_some] at hkm
        exact hm hkm
    have hlist' : ∀ j, j ≤ p.dropLast.length → (fs.listdir (p.dropLast.take j)).isSome = true := by
      intro j hj
      rw [hdl] at hj
      rw [dropLast_take_eq p j hj]
      exact hlist j (by omega)
    have hmem' : ∃ j, j ≤ p.dropLast.length ∧ name ∈ (fs.listdir (p.dropLast.take j)).getD [] := by
      refine ⟨k, by omega, ?_⟩
      rw [dropLast_take_eq p k (by omega)]
      exact hkm
    obtain ⟨k', hk', hkm', hres⟩ := ih hlist' hmem'
    have hk'le : k' ≤ p.length - 1 := by
      have : k' ≤ p.dropLast.length := hk'
      omega
    refine ⟨k', by omega, ?_, ?_⟩
    · rw [← dropLast_take_eq p k' hk'le]
      exact hkm'
    · rw [find_path_step fs name p entries h hm hne', ← dropLast_take_eq p k' hk'le]
      exact hres

/-- C2: when the target name occurs at level k of the starting path (the
ancestor path.take k) and at no level strictly between k and the starting
directory, find_path returns the match at level k: the match closest to the
starting directory wins, and with k = path.length (the starting directory
itself) the search returns immediately with zero ascents. -/
theorem find_path_shallowest_match (fs : FileSystem) (name : String) (path : List String)
    (k : Nat) (hk : k ≤ path.length)
    (hmem : name ∈ (fs.listdir (path.take k)).getD [])
    (habove : ∀ j, k < j → j ≤ path.length →
      (fs.listdir (path.take j)).isSome = true ∧ name ∉ (fs.listdir (path.take j)).getD []) :
    (find_path fs name path).1 = .ok (some (path.take k ++ [name])) := by
  induction path using find_path.induct fs name with
  | case1 p h =>
    exfalso
    rcases Nat.lt_or_ge k p.length with h1 | h2
    · have := (habove p.length h1 le_rfl).1
      rw [List.take_length, h] at this
      simp at this
    · have hkeq : k = p.length := le_antisymm hk h2
      subst hkeq
      rw [List.take_length, h] at hmem
      simp at hmem
  | case2 p entries h hm =>
    have hkeq : k = p.length := by
      rcases Nat.lt_or_ge k p.length with h1 | h2
      · exfalso
        have := (habove p.length h1 le_rfl).2
        rw [List.take_length, h] at this
        simp only [Option.getD_some] at this
        exact this hm
      · exact le_antisymm hk h2
    subst hkeq
    rw [find_path_mem fs name p entries h hm, List.take_length]
  | case3 p entries h hm parent hroot =>
    exfalso
    have hroot' : p.dropLast = p := hroot
    have hp : p = [] := (dropLast_eq_self_iff p).mp hroot'
    subst hp
    have hk0 : k = 0 := by simpa using hk
    subst hk0
    simp only [List.take_nil, h, Option.getD_some] at hmem
    exact hm hmem
  | case4 p entries h hm parent hne ih =>
    have hne' : p.dropLast ≠ p := hne
    have hp : p ≠ [] := fun hp0 => hne' ((dropLast_eq_self_iff p).mpr hp0)
    have hpos : 0 < p.length := List.length_pos.mpr hp
    have hdl : p.dropLast.length = p.length - 1 := List.length_dropLast p
    have hklt : k < p.length := by
      rcases Nat.lt_or_ge k p.length with h1 | h2
      · exact h1
      · exfalso
        have hkeq : k = p.length := le_antisymm hk h2
        subst hkeq
        rw [List.take_length, h] at hmem
        simp only [Option.getD_some] at hmem
        exact hm hmem
    have hmem' : name ∈ (fs.listdir (p.dropLast.take k)).getD [] := by
      rw [dropLast_take_eq p k (by omega)]
      exact hmem
    have habove' : ∀ j, k < j → j ≤ p.dropLast.length →
        (fs.listdir (p.dropLast.take j)).isSome = true ∧
          name ∉ (fs.listdir (p.dropLast.take j)).getD [] := by
      intro j hjk hj
      rw [dropLast_take_eq p j (by omega)]
      exact habove j hjk (by omega)
    have hpl : parent.length = p.length - 1 := hdl
    have hres := ih (by omega) hmem' habove'
    rw [find_path_step fs name p entries h hm hne', ← dropLast_take_eq p k (by omega)]
    exact hres

/-- C3: when the target name appears in the child list of no directory on
the path from the starting directory up to the filesystem root, and every
directory on that path is listable, find_path returns the not-found result
.ok none: no exception is raised, absence is a normal terminal outcome. -/
theorem find_path_not_found_no_raise (fs : FileSystem) (name : String) (path : List String)
    (h : ∀ k, k ≤ path.length →
      (fs.listdir (path.take k)).isSome = true ∧ name ∉ (fs.listdir (path.take k)).getD []) :
    (find_path fs name path).1 = .ok none := by
  induction path using find_path.induct fs name with
  | case1 p hl =>
    exfalso
    have := (h p.length le_rfl).1
    rw [List.take_length, hl] at this
    simp at this
  | case2 p entries hl hm =>
    exfalso
    have := (h p.length le_rfl).2
    rw [List.take_length, hl] at this
    simp only [Option.getD_some] at this
    exact this hm
  | case3 p entries hl hm parent hroot =>
    rw [find_path_stop fs name p entries hl hm hroot]
  | case4 p entries hl hm parent hne ih =>
    have hne' : p.dropLast ≠ p := hne
    have hp : p ≠ [] := fun hp0 => hne' ((dropLast_eq_self_iff p).mpr hp0)
    have hpos : 0 < p.length := List.length_pos.mpr hp
    have hdl : p.dropLast.length = p.length - 1 := List.length_dropLast p
    have h' : ∀ j, j ≤ p.dropLast.length →
        (fs.listdir (p.dropLast.take j)).isSome = true ∧
          name ∉ (fs.listdir (p.dropLast.take j)).getD [] := by
      intro j hj
      rw [dropLast_take_eq p j (by omega)]
      exact h j (by omega)
    rw [find_path_step fs name p entries hl hm hne']
    exact ih h'

/-- C4: find_path terminates, and a fuel of (depth of the starting
directory) + 1 invocations always suffices: the fuel-indexed variant run
with path.length + 1 units of fuel never exhausts its fuel and computes
exactly find_path, so at most path.length recursive steps are taken, the
path strictly shortening toward the root at each step. -/
theorem find_path_terminates_depth_bound (fs : FileSystem) (name : String) (path : List String) :
    find_path_fuel fs name (path.length + 1) path = some (find_path fs name path) := by
  induction path using find_path.induct fs name with
  | case1 p h =>
    rw [find_path_listdir_none fs name p h]
    simp [find_path_fuel, h]
  | case2 p entries h hm =>
    rw [find_path_mem fs name p entries h hm]
    simp [find_path_fuel, h, hm]
  | case3 p entries h hm parent hroot =>
    have hroot' : p.dropLast = p := hroot
    rw [find_path_stop fs name p entries h hm hroot']
    simp [find_path_fuel, h, hm, hroot']
  | case4 p entries h hm parent hne ih =>
    have hne' : p.dropLast ≠ p := hne
    have hp : p ≠ [] := fun hp0 => hne' ((dropLast_eq_self_iff p).mpr hp0)
    have hpos : 0 < p.length := List.length_pos.mpr hp
    have hlen : p.dropLast.length + 1 = p.length := by
      rw [List.length_dropLast]
      omega
    rw [find_path_step fs name p entries h hm hne']
    simp only [find_path_fuel, h, if_neg hm, if_neg hne']
    rw [← hlen] at *
    exact ih

/-- C10: the no-raise guarantee of find_path needs the visited directories
to be listable: when the starting path itself cannot be listed, find_path
propagates the listing error instead of returning the not-found result. -/
theorem find_path_unlistable_start_raises (fs : FileSystem) (name : String) (path : List String)
    (h : fs.listdir path = none) :
    (find_path fs name path).1 = .error () := by
  rw [find_path_listdir_none fs name path h]

/-- Witness for C10 at a concrete filesystem on which listing raises. -/
theorem find_path_unlistable_start_raises_witness :
    (find_path fsUnlistable "ComfyUI" ["a"]).1 = .error () :=
  find_path_unlistable_start_raises fsUnlistable "ComfyUI" ["a"] rfl

/-- Witness for C1: in a tree with "target" at the root only, starting one
level down, find_path returns an ancestor join. -/
theorem find_path_returns_ancestor_join_witness :
    ∃ k, k ≤ (["a"] : List String).length ∧
      "target" ∈ (fsTargetAtRoot.listdir ((["a"] : List String).take k)).getD [] ∧
      (find_path fsTargetAtRoot "target" ["a"]).1 =
        .ok (some ((["a"] : List String).take k ++ ["target"])) :=
  find_path_returns_ancestor_join fsTargetAtRoot "target" ["a"]
    (by decide) ⟨0, by decide, by decide⟩

/-- Witness for C2: with "target" present both at the root and in the
starting directory, the starting directory's match wins (zero ascents). -/
theorem find_path_shallowest_match_witness :
    (find_path fsTargetEverywhere "target" ["a"]).1 =
      .ok (some ((["a"] : List String).take 1 ++ ["target"])) :=
  find_path_shallowest_match fsTargetEverywhere "target" ["a"] 1
    (by decide) (by decide)
    (by intro j h1 h2; have h2' : j ≤ 1 := h2; omega)

/-- Witness for C3: in an all-empty tree the search reports not found. -/
theorem find_path_not_found_no_raise_witness :
    (find_path fsEmptyA "target" ["a"]).1 = .ok none :=
  find_path_not_found_no_raise fsEmptyA "target" ["a"] (by decide)

/-- Counterexample to C8 as stated: find_path does produce an output
channel effect, printing a found message when the search succeeds. -/
theorem find_path_prints_on_success :
    (find_path fsComfyAtRoot "ComfyUI" []).2 = [.found "ComfyUI" ["ComfyUI"]] ∧
    (find_path fsComfyAtRoot "ComfyUI" []).2 ≠ ([] : List LogEvent) := by
  have h := find_path_mem fsComfyAtRoot "ComfyUI" [] ["ComfyUI"] rfl (by decide)
  rw [h]
  exact ⟨rfl, by simp⟩

/-- C8 (amended): find_path modifies no filesystem state (the filesystem is
only read through listdir), and its only output channel effect is a single
found log line emitted exactly when the search succeeds; on the not-found
and error outcomes it prints nothing. -/
theorem find_path_effects_spec (fs : FileSystem) (name : String) (path : List String) :
    (find_path fs name path).2 =
      match (find_path fs name path).1 with
      | .ok (some r) => [LogEvent.found name r]
      | _ => [] :=
  find_path_trace fs name path

/-- Counterexample to C7 as stated: in a tree without a ComfyUI directory,
the script does not log the condition — add_comfyui_directory_to_sys_path
returns with an empty event trace (and continues, sys.path unchanged). -/
theorem add_comfyui_not_found_logs_nothing :
    (find_path fsEmptyB "ComfyUI" ["a"]).1 = .ok none ∧
    add_comfyui_directory_to_sys_path fsEmptyB ["a"] [] = .ok ([], []) := by
  have h : find_path fsEmptyB "ComfyUI" ["a"] = (.ok none, []) := by
    rw [find_path_step fsEmptyB "ComfyUI" ["a"] [] rfl (by decide) (by decide),
      show (["a"] : List String).dropLast = [] from rfl,
      find_path_stop fsEmptyB "ComfyUI" [] [] rfl (by decide) rfl]
  constructor
  · rw [h]
  · rw [add_comfyui_directory_to_sys_path, h]

/-- C7 (amended): path-not-found is non-fatal for both lookups, but only
the missing config file is logged: when find_path does not find ComfyUI,
add_comfyui_directory_to_sys_path returns normally with sys.path unchanged
and no log output; when find_path does not find extra_model_paths.yaml,
add_extra_model_paths returns normally and logs the could-not-find
message. -/
theorem path_not_found_nonfatal (fs : FileSystem) (cwd : List String)
    (sys_path : List (List String))
    (h1 : (find_path fs "ComfyUI" cwd).1 = .ok none)
    (h2 : (find_path fs "extra_model_paths.yaml" cwd).1 = .ok none) :
    add_comfyui_directory_to_sys_path fs cwd sys_path = .ok (sys_path, []) ∧
    add_extra_model_paths fs cwd = .ok [.configNotFound] := by
  have t1 : (find_path fs "ComfyUI" cwd).2 = [] := by
    rw [find_path_trace fs "ComfyUI" cwd, h1]
  have t2 : (find_path fs "extra_model_paths.yaml" cwd).2 = [] := by
    rw [find_path_trace fs "extra_model_paths.yaml" cwd, h2]
  have e1 : find_path fs "ComfyUI" cwd = (.ok none, []) := by
    rw [Prod.ext_iff]
    exact ⟨h1, t1⟩
  have e2 : find_path fs "extra_model_paths.yaml" cwd = (.ok none, []) := by
    rw [Prod.ext_iff]
    exact ⟨h2, t2⟩
  constructor
  · rw [add_comfyui_directory_to_sys_path, e1]
  · rw [add_extra_model_paths, e2]
    simp

/-- Witness for the amended C7 at a concrete all-empty tree. -/
theorem path_not_found_nonfatal_witness :
    add_comfyui_directory_to_sys_path fsEmptyB ["b"] [] = .ok ([], []) ∧
    add_extra_model_paths fsEmptyB ["b"] = .ok [.configNotFound] :=
  path_not_found_nonfatal fsEmptyB ["b"] []
    (by rw [find_path_step fsEmptyB "ComfyUI" ["b"] [] rfl (by decide) (by decide),
          show (["b"] : List String).dropLast = [] from rfl,
          find_path_stop fsEmptyB "ComfyUI" [] [] rfl (by decide) rfl])
    (by rw [find_path_step fsEmptyB "extra_model_paths.yaml" ["b"] [] rfl (by decide) (by decide),
          show (["b"] : List String).dropLast = [] from rfl,
          find_path_stop fsEmptyB "extra_model_paths.yaml" [] [] rfl (by decide) rfl])

/-! Claim theorems about get_value_at_index. -/

/-- C5: for a sequence and an in-range nonnegative index, get_value_at_index
returns the element at that position; for a mapping on which the direct
positional access fails with a missing-key error, it returns the element at
that position of the sequence stored under the fixed key "result". -/
theorem get_value_at_index_direct_and_fallback (i : Int) (h0 : 0 ≤ i) :
    (∀ (elems : List Value) (v : Value), elems.get? i.toNat = some v →
      get_value_at_index (.seq elems) i = .ok v) ∧
    (∀ (entries : List (Key × Value)) (relems : List Value) (v : Value),
      entries.lookup (Key.intKey i) = none →
      entries.lookup (Key.strKey "result") = some (.seq relems) →
      relems.get? i.toNat = some v →
      get_value_at_index (.map entries) i = .ok v) := by
  have hnlt : ¬i < 0 := not_lt.mpr h0
  constructor
  · intro elems v hv
    rw [List.get?_eq_getElem?] at hv
    simp [get_value_at_index, getitem_int, hnlt, h0, hv]
  · intro entries relems v hnone hres hv
    rw [List.get?_eq_getElem?] at hv
    simp [get_value_at_index, getitem_int, getitem_str, hnone, hres, hnlt, h0, hv]

/-- Witness for C5 at a one-element sequence and index 0. -/
theorem get_value_at_index_direct_and_fallback_witness :
    get_value_at_index (.seq [.seq []]) 0 = .ok (.seq []) :=
  (get_value_at_index_direct_and_fallback 0 (by decide)).1 [.seq []] (.seq []) rfl

/-- C6: when neither access path succeeds, the failure propagates unhandled
and no substitute value is produced: a non-KeyError failure of the direct
access propagates as is, and when the direct access raises KeyError, any
failure of the "result" lookup or of the index into its value propagates. -/
theorem get_value_at_index_failure_propagates (obj : Value) (i : Int) :
    (∀ e, e ≠ PyError.keyError → getitem_int obj i = .error e →
      get_value_at_index obj i = .error e) ∧
    (getitem_int obj i = .error .keyError →
      ∀ e, getitem_str obj "result" = .error e → get_value_at_index obj i = .error e) ∧
    (getitem_int obj i = .error .keyError →
      ∀ r e, getitem_str obj "result" = .ok r → getitem_int r i = .error e →
        get_value_at_index obj i = .error e) := by
  refine ⟨?_, ?_, ?_⟩
  · intro e he h
    cases e with
    | keyError => exact absurd rfl he
    | indexError => simp [get_value_at_index, h]
    | typeError => simp [get_value_at_index, h]
  · intro h e h2
    simp [get_value_at_index, h, h2]
  · intro h r e h2 h3
    simp [get_value_at_index, h, h2, h3]

/-- Witness for C6: on an empty mapping both the direct access and the
fallback lookup raise KeyError, which propagates. -/
theorem get_value_at_index_failure_propagates_witness :
    get_value_at_index (.map []) 0 = .error .keyError :=
  (get_value_at_index_failure_propagates (.map []) 0).2.1 rfl PyError.keyError rfl

/-- C9: a mapping that contains the integer index as a key is answered
directly, without consulting the "result" fallback; and an out-of-range
positional access on a sequence raises IndexError, which propagates
without the fallback being attempted. -/
theorem get_value_at_index_no_fallback (i : Int) :
    (∀ (entries : List (Key × Value)) (v : Value),
      entries.lookup (Key.intKey i) = some v →
      get_value_at_index (.map entries) i = .ok v) ∧
    (∀ elems : List Value, getitem_int (.seq elems) i = .error .indexError →
      get_value_at_index (.seq elems) i = .error .indexError) := by
  constructor
  · intro entries v hv
    simp [get_value_at_index, getitem_int, hv]
  · intro elems h
    simp [get_value_at_index, h]

/-- Witness for C9: a mapping with the key 0 never consults its "result"
entry, and indexing an empty sequence propagates IndexError. -/
theorem get_value_at_index_no_fallback_witness :
    get_value_at_index (.map [(Key.intKey 0, .seq [])]) 0 = .ok (.seq []) ∧
    get_value_at_index (.seq []) 0 = .error .indexError :=
  ⟨(get_value_at_index_no_fallback 0).1 [(Key.intKey 0, .seq [])] (.seq []) rfl,
    (get_value_at_index_no_fallback 0).2 [] rfl⟩

end FluxDev
